import Mathlib

/-!
Verification development for the `evsrc` Server-Sent-Events library
(encoder `ServerConn.Send`, decoder `ClientConn.Receive`).

The embedding works over byte lists (`List Nat`, each element a byte value).
Go strings are byte sequences and are modelled as `List Nat` as well.
`Event.Data []byte` has tri-state semantics (nil / empty / non-empty) and is
modelled as `Option (List Nat)`.

The decoder reads from a `bufio.Reader`.  We model the reader as the list of
bytes remaining on the stream, together with the error value (`endE`) that the
underlying reader produces once the bytes run out (`io.EOF` for a normally
closed stream, or a generic I/O failure).  `bufio` operations are modelled for
a reader whose internal buffer is larger than any line on the stream, so
`ReadLine` returns a whole line in one chunk with `isPrefix == false`
(this corresponds to a real execution with `bufio.NewReaderSize(r, n)` for
large enough `n`; the `for isPrefix` loops in the source then run exactly one
iteration).  `UnreadByte` is modelled by consing the last consumed byte back
onto the stream.

Fallible operations return `Except GoErr`; a Go `(value, err)` pair with
`err != nil` is modelled as `.error`, matching the convention that the value
is not used by callers when an error is returned.

Machine integers: `Event.Retry int` is modelled as `Int`; `strconv.ParseInt`
with bitSize 0 is modelled with the explicit 64-bit range check of a 64-bit
platform.
-/

/-- Error taxonomy of the decode side: end-of-stream, a generic failure of the
underlying reader, and the size-limit error `errEventDataTooBig`. -/
inductive GoErr where
  | eof
  | ioErr
  | dataTooBig
deriving DecidableEq, Repr

/-- The `Event` struct: `Event string`, `Data []byte` (tri-state, `none` is Go
`nil`), `ID string`, `Retry int`. -/
structure Event where
  event : List Nat
  data : Option (List Nat)
  id : List Nat
  retry : Int
deriving DecidableEq, Repr

/-- `Event.isZero`: all four fields at their defaults (`Data == nil` is a
nil-check, so a present-but-empty `Data` is not zero). -/
def Event.isZero (e : Event) : Bool :=
  e.event = [] ∧ e.data = none ∧ e.id = [] ∧ e.retry = 0

/-- `MaxEventDataSize = 1024 * 1024 * 4`. -/
def MaxEventDataSize : Nat := 1024 * 1024 * 4

/-- Length of the accumulated `event.Data` (`len` of a nil slice is 0). -/
def dataLen : Option (List Nat) → Nat
  | none => 0
  | some l => l.length

/-- Go `append` on a `[]byte`: appending nothing to a nil slice keeps it nil,
appending something to nil allocates (the slice becomes non-nil). -/
def appendD : Option (List Nat) → List Nat → Option (List Nat)
  | none, [] => none
  | none, x => some x
  | some l, x => some (l ++ x)

/-- `strings.TrimSuffix(s, "\n")`. -/
def trimNL (l : List Nat) : List Nat :=
  if l.getLast? = some 10 then l.dropLast else l

/-- The `\r`-stripping done by `bufio.Reader.ReadLine` on a line that ended in
`\r\n`. -/
def stripCR (l : List Nat) : List Nat :=
  if l.getLast? = some 13 then l.dropLast else l

/-- Split a byte stream at its first newline: `some (before, after)`, neither
part containing that newline; `none` if the stream has no newline. -/
def splitNL : List Nat → Option (List Nat × List Nat)
  | [] => none
  | b :: rest =>
    if b = 10 then some ([], rest)
    else (splitNL rest).map (fun p => (b :: p.1, p.2))

/-- `bufio.Reader.ReadString('\n')`: bytes up to and including the newline, or
the reader's error if the stream ends first.  Returns (string read, remaining
stream). -/
def readStringNL (s : List Nat) (endE : GoErr) : Except GoErr (List Nat × List Nat) :=
  match splitNL s with
  | some (l, r) => .ok (l ++ [10], r)
  | none => .error endE

/-- `bufio.Reader.ReadLine` (whole-line chunk, `isPrefix = false`): returns
(line without `\n`, with a final `\r\n` fully stripped; remaining stream;
remaining stream after a subsequent `UnreadByte`).  At end of stream with no
newline the remaining bytes are returned with no error (the reader's error
surfaces on the next call); `UnreadByte` then pushes back the last byte that
was actually consumed. -/
def readLine (s : List Nat) (endE : GoErr) :
    Except GoErr (List Nat × List Nat × List Nat) :=
  match splitNL s with
  | some (l, r) => .ok (stripCR l, r, 10 :: r)
  | none =>
    match s with
    | [] => .error endE
    | _ => .ok (s, [], [(s.getLast?).getD 0])

/-- The generic consume-to-next-newline step at the bottom of the `Receive`
loop: `for isPrefix { _, isPrefix, err = c.br.ReadLine() }`. -/
def eatLine (s : List Nat) (endE : GoErr) : Except GoErr (List Nat) :=
  match readLine s endE with
  | .error er => .error er
  | .ok (_, rest, _) => .ok rest

/-- `readFieldName(dataLeft, r)`: matches the remaining bytes of a field name,
then a colon, then consumes one optional space.  Returns `(ok, remaining
stream)`.  Mirrors the source exactly: on a mismatched byte the byte stays
consumed (the `b == '\n'` unread guard is checked only after the mismatch
test); on a non-colon or non-space byte the byte is unread. -/
def readFieldName (dataLeft : List Nat) (s : List Nat) (endE : GoErr) :
    Except GoErr (Bool × List Nat) :=
  match dataLeft with
  | c :: cs =>
    match s with
    | [] => .error endE
    | b :: s1 =>
      if b ≠ c then .ok (false, s1)
      else if b = 10 then .ok (false, 10 :: s1)
      else readFieldName cs s1 endE
  | [] =>
    match s with
    | [] => .error endE
    | b :: s1 =>
      if b ≠ 58 then .ok (false, b :: s1)
      else
        match s1 with
        | [] => .error endE
        | b2 :: s2 => if b2 ≠ 32 then .ok (true, b2 :: s2) else .ok (true, s2)

/-- Dispatch step of the blank-line case: strip one trailing newline that data
accumulation appended (`event.Data = event.Data[:len-1]`; a non-nil slice
stays non-nil when truncated). -/
def stripOne (ev : Event) : Event :=
  match ev.data with
  | some l => if l.getLast? = some 10 then { ev with data := some l.dropLast } else ev
  | none => ev

/-- `digitsVal` is the accumulator loop of `strconv.ParseUint` for base 10:
fails on any non-digit byte. -/
def digitsVal : List Nat → Nat → Option Nat
  | [], acc => some acc
  | d :: ds, acc =>
    if 48 ≤ d ∧ d ≤ 57 then digitsVal ds (acc * 10 + (d - 48)) else none

/-- `strconv.ParseInt(s, 10, 0)` on a 64-bit platform: optional sign, nonempty
digit string, 64-bit `int` range check. -/
def parseGoInt (s : List Nat) : Option Int :=
  match s with
  | [] => none
  | b :: rest =>
    if b = 45 then
      match rest with
      | [] => none
      | _ =>
        match digitsVal rest 0 with
        | none => none
        | some n => if n ≤ 2 ^ 63 then some (-(n : Int)) else none
    else if b = 43 then
      match rest with
      | [] => none
      | _ =>
        match digitsVal rest 0 with
        | none => none
        | some n => if n < 2 ^ 63 then some ((n : Int)) else none
    else
      match digitsVal (b :: rest) 0 with
      | none => none
      | some n => if n < 2 ^ 63 then some ((n : Int)) else none

/-- Outcome of one iteration of the `Receive` loop: either the call returns
(`done`: final `LastEventID` and the Go `(Event, error)` result, with the
remaining stream alongside a dispatched event), or the loop continues
(`cont`: updated `LastEventID`, in-progress event, remaining stream). -/
inductive StepRes where
  | done : List Nat × Except GoErr (Event × List Nat) → StepRes
  | cont : List Nat → Event → List Nat → StepRes
deriving Repr

/-- The shared bottom-of-loop step: run the generic consume-to-next-newline
eater, then continue the loop with the (already applied) state updates
`last'` and `ev'`; a read failure in the eater returns it, with the state
updates already in effect on the connection. -/
def afterEat (endE : GoErr) (last' : List Nat) (ev' : Event) (s : List Nat) : StepRes :=
  match eatLine s endE with
  | .error er => .done (last', .error er)
  | .ok s4 => .cont last' ev' s4

/-- One iteration of the `for` loop in `ClientConn.Receive`: read one byte,
switch on it (`'\n'` dispatch, `event`/`data`/`id`/`retry` fields, UTF-8 BOM,
comment/unknown), then — for every non-terminating case except a completed
BOM — run the generic consume-to-next-newline step. -/
def receiveStep (endE : GoErr) (last : List Nat) (ev : Event) (s : List Nat) : StepRes :=
  match s with
  | [] => .done (last, .error endE)
  | b :: s1 =>
    if b = 10 then
      -- Dispatch event
      if dataLen ev.data = 0 then .cont last ev s1
      else .done (last, .ok (stripOne ev, s1))
    else if b = 101 then
      -- Should only be /event: ?/
      match readFieldName [118, 101, 110, 116] s1 endE with
      | .error er => .done (last, .error er)
      | .ok (ok, s2) =>
        if ok then
          match readStringNL s2 endE with
          | .error er => .done (last, .error er)
          | .ok (eventName, s3) =>
            afterEat endE last { ev with event := trimNL eventName } (10 :: s3)
        else afterEat endE last ev s2
    else if b = 100 then
      -- Should only be /data: ?/
      match readFieldName [97, 116, 97] s1 endE with
      | .error er => .done (last, .error er)
      | .ok (ok, s2) =>
        if ok then
          match readLine s2 endE with
          | .error er => .done (last, .error er)
          | .ok (dat, _, push) =>
            let d1 := appendD ev.data dat
            if MaxEventDataSize ≤ dataLen d1 + dat.length then
              .done (last, .error .dataTooBig)
            else afterEat endE last { ev with data := appendD d1 [10] } push
        else afterEat endE last ev s2
    else if b = 105 then
      -- Should only be /id: ?/
      match readFieldName [100] s1 endE with
      | .error er => .done (last, .error er)
      | .ok (ok, s2) =>
        if ok then
          match readStringNL s2 endE with
          | .error er => .done (last, .error er)
          | .ok (idStr, s3) =>
            afterEat endE (trimNL idStr) { ev with id := trimNL idStr } (10 :: s3)
        else afterEat endE last ev s2
    else if b = 114 then
      -- Should only be /retry: ?/
      match readFieldName [101, 116, 114, 121] s1 endE with
      | .error er => .done (last, .error er)
      | .ok (ok, s2) =>
        if ok then
          match readStringNL s2 endE with
          | .error er => .done (last, .error er)
          | .ok (retryStr, s3) =>
            match parseGoInt (trimNL retryStr) with
            | none => afterEat endE last ev (10 :: s3)
            | some v => afterEat endE last { ev with retry := v } (10 :: s3)
        else afterEat endE last ev s2
    else if b = 239 then
      -- UTF-8 BOM, allowed after any newline
      match s1 with
      | [] => .done (last, .error endE)
      | b2 :: s2 =>
        if b2 ≠ 187 then afterEat endE last ev s2
        else
          match s2 with
          | [] => .done (last, .error endE)
          | b3 :: s3 =>
            if b3 ≠ 191 then afterEat endE last ev s3
            else
              -- do not fall through to the line eater, repeat the read
              .cont last ev s3
    else
      -- ':' or some unknown field: ignore this line
      afterEat endE last ev s1

/-- The `for` loop of `Receive`, with explicit fuel.  Every iteration consumes
at least one byte of the stream, so fuel `s.length + 1` always suffices
(`receiveLoop_isSome`). -/
def receiveLoop (endE : GoErr) :
    Nat → List Nat → Event → List Nat → Option (List Nat × Except GoErr (Event × List Nat))
  | 0, _, _, _ => none
  | fuel + 1, last, ev, s =>
    match receiveStep endE last ev s with
    | .done r => some r
    | .cont last' ev' s' => receiveLoop endE fuel last' ev' s'

/-- `ClientConn.Receive(buf)` on a connection whose `LastEventID` is `last`
and whose reader holds the bytes `s` followed by terminal condition `endE`.
Returns the connection's `LastEventID` after the call together with the Go
result: an error, or the dispatched event and the unconsumed remainder of the
stream.  `buf != nil` seeds `event.Data` with an empty present slice. -/
def receive (endE : GoErr) (last : List Nat) (buf : Option (List Nat)) (s : List Nat) :
    List Nat × Except GoErr (Event × List Nat) :=
  let ev0 : Event := { event := [], data := buf.map (fun _ => ([] : List Nat)), id := [], retry := 0 }
  match receiveLoop endE (s.length + 1) last ev0 s with
  | some r => r
  | none => (last, .error endE)

/-- Decimal digit bytes of a natural number (helper loop of `fmt` `%d`),
with fuel (`n + 1` always suffices). -/
def natDigitsAux : Nat → Nat → List Nat
  | 0, _ => []
  | fuel + 1, n =>
    if n < 10 then [48 + n] else natDigitsAux fuel (n / 10) ++ [48 + n % 10]

/-- Decimal digit bytes of a natural number. -/
def natDigits (n : Nat) : List Nat := natDigitsAux (n + 1) n

/-- `fmt` `%d` of a Go `int`. -/
def intDec (i : Int) : List Nat :=
  if i < 0 then 45 :: natDigits (-i).toNat else natDigits i.toNat

/-- The data-writing loop of `Send`: repeatedly take the bytes up to the next
newline and emit them as a `"data: <line>\n"` line; a trailing empty segment
(from `data` ending in a newline after the initial trim) is not emitted
because the loop stops when `data` is empty.  `cur` is the part of the
current segment already scanned. -/
def sendDataAux (cur : List Nat) : List Nat → List Nat
  | [] => [100, 97, 116, 97, 58, 32] ++ cur ++ [10]
  | b :: rest =>
    if b = 10 then
      ([100, 97, 116, 97, 58, 32] ++ cur ++ [10]) ++
        (if rest = [] then [] else sendDataAux [] rest)
    else sendDataAux (cur ++ [b]) rest

/-- Bytes emitted by `Send`'s data loop for the (already newline-trimmed)
payload `d`. -/
def sendData (d : List Nat) : List Nat :=
  if d = [] then [] else sendDataAux [] d

/-- `ServerConn.Send(e)`: the bytes written to the response.  A zero event is
the keepalive `":\n\n"`; otherwise the `event`/`id`/`retry` lines (each only
when non-default), the `data:` lines, an explicit `"data:\n"` (no space) when
the payload ends in a newline, and the blank terminator line. -/
def send (e : Event) : List Nat :=
  if e.isZero then [58, 10, 10]
  else
    (if e.event = [] then [] else [101, 118, 101, 110, 116, 58, 32] ++ e.event ++ [10]) ++
    (if e.id = [] then [] else [105, 100, 58, 32] ++ e.id ++ [10]) ++
    (if e.retry = 0 then [] else [114, 101, 116, 114, 121, 58, 32] ++ intDec e.retry ++ [10]) ++
    (let data := e.data.getD []
     (if data.getLast? = some 10 then sendData data.dropLast else sendData data) ++
       (if data.getLast? = some 10 then [100, 97, 116, 97, 58, 10] else [])) ++
    [10]

/-- The newline-separated segments of a payload, as produced by the `Send`
data loop (a trailing empty segment is dropped); `cur` is the scanned part of
the current segment. -/
def segsAux (cur : List Nat) : List Nat → List (List Nat)
  | [] => [cur]
  | b :: rest =>
    if b = 10 then cur :: (if rest = [] then [] else segsAux [] rest)
    else segsAux (cur ++ [b]) rest

/-- The newline-separated segments of a nonempty payload; empty payload has
no segments (the `Send` loop does not run). -/
def segs (d : List Nat) : List (List Nat) :=
  if d = [] then [] else segsAux [] d

/-- The wire bytes of a list of `data:` lines, one per segment. -/
def emitLines (ss : List (List Nat)) : List Nat :=
  ss.foldr (fun l acc => [100, 97, 116, 97, 58, 32] ++ l ++ 10 :: acc) []

/-- The bytes the decoder accumulates from a list of data segments: each
segment followed by the newline marker. -/
def flattenSegs (ss : List (List Nat)) : List Nat :=
  ss.foldr (fun l acc => l ++ 10 :: acc) []

/-- Concatenation of `n` copies of a byte string. -/
def repeatN : Nat → List Nat → List Nat
  | 0, _ => []
  | n + 1, l => l ++ repeatN n l

/-! ### Facts about the reader primitives -/

theorem splitNL_append_nl (t r : List Nat) (h : 10 ∉ t) :
    splitNL (t ++ 10 :: r) = some (t, r) := by
  induction t with
  | nil => simp [splitNL]
  | cons b t ih =>
    have hb : b ≠ 10 := fun hb => h (by simp [hb])
    have h' : 10 ∉ t := fun hm => h (List.mem_cons_of_mem _ hm)
    simp [splitNL, hb, ih h']

theorem splitNL_eq_some {s l r : List Nat} (h : splitNL s = some (l, r)) :
    s = l ++ 10 :: r := by
  induction s generalizing l r with
  | nil => simp [splitNL] at h
  | cons b s ih =>
    by_cases hb : b = 10
    · subst hb
      simp [splitNL] at h
      obtain ⟨h1, h2⟩ := h
      subst h1; subst h2; rfl
    · simp only [splitNL, if_neg hb] at h
      cases hsp : splitNL s with
      | none => rw [hsp] at h; simp at h
      | some p =>
        rw [hsp] at h
        simp at h
        obtain ⟨h1, h2⟩ := h
        have := ih (show splitNL s = some (p.1, p.2) from by rw [hsp])
        rw [← h1, ← h2]
        simp [this]

theorem trimNL_concat (l : List Nat) : trimNL (l ++ [10]) = l := by
  simp [trimNL, List.getLast?_concat, List.dropLast_concat]

theorem stripCR_of_ne {l : List Nat} (h : l.getLast? ≠ some 13) : stripCR l = l := by
  simp [stripCR, h]

theorem readFieldName_ok_length {dl s : List Nat} {e : GoErr} {fl : Bool} {s' : List Nat}
    (h : readFieldName dl s e = .ok (fl, s')) : s'.length ≤ s.length := by
  induction dl generalizing s fl s' with
  | nil =>
    cases s with
    | nil => simp [readFieldName] at h
    | cons b s1 =>
      simp only [readFieldName] at h
      by_cases h58 : b ≠ 58
      · rw [if_pos h58] at h
        simp only [Except.ok.injEq, Prod.mk.injEq] at h
        obtain ⟨-, h2⟩ := h
        subst h2
        exact le_refl _
      · rw [if_neg h58] at h
        cases s1 with
        | nil => simp at h
        | cons b2 s2 =>
          dsimp only at h
          by_cases h32 : b2 ≠ 32
          · rw [if_pos h32] at h
            simp only [Except.ok.injEq, Prod.mk.injEq] at h
            obtain ⟨-, h2⟩ := h
            subst h2
            simp only [List.length_cons]
            omega
          · rw [if_neg h32] at h
            simp only [Except.ok.injEq, Prod.mk.injEq] at h
            obtain ⟨-, h2⟩ := h
            subst h2
            simp only [List.length_cons]
            omega
  | cons c cs ih =>
    cases s with
    | nil => simp [readFieldName] at h
    | cons b s1 =>
      simp only [readFieldName] at h
      by_cases hbc : b ≠ c
      · rw [if_pos hbc] at h
        simp only [Except.ok.injEq, Prod.mk.injEq] at h
        obtain ⟨-, h2⟩ := h
        subst h2
        simp only [List.length_cons]
        omega
      · rw [if_neg hbc] at h
        by_cases h10 : b = 10
        · rw [if_pos h10] at h
          simp only [Except.ok.injEq, Prod.mk.injEq] at h
          obtain ⟨-, h2⟩ := h
          subst h2
          simp only [List.length_cons]
          omega
        · rw [if_neg h10] at h
          exact le_trans (ih h) (by simp only [List.length_cons]; omega)

theorem readStringNL_ok_length {s : List Nat} {e : GoErr} {full r : List Nat}
    (h : readStringNL s e = .ok (full, r)) : r.length < s.length := by
  unfold readStringNL at h
  cases hsp : splitNL s with
  | none => rw [hsp] at h; simp at h
  | some p =>
    rw [hsp] at h
    simp only [Except.ok.injEq, Prod.mk.injEq] at h
    obtain ⟨-, h2⟩ := h
    have := splitNL_eq_some (show splitNL s = some (p.1, p.2) from by rw [hsp])
    subst h2
    rw [this]
    simp only [List.length_append, List.length_cons]
    omega

theorem readLine_ok_length {s : List Nat} {e : GoErr} {l rest push : List Nat}
    (h : readLine s e = .ok (l, rest, push)) :
    rest.length < s.length ∧ push.length ≤ s.length := by
  unfold readLine at h
  cases hsp : splitNL s with
  | some p =>
    rw [hsp] at h
    simp only [Except.ok.injEq, Prod.mk.injEq] at h
    obtain ⟨-, h2, h3⟩ := h
    have := splitNL_eq_some (show splitNL s = some (p.1, p.2) from by rw [hsp])
    subst h2
    subst h3
    rw [this]
    simp only [List.length_append, List.length_cons]
    omega
  | none =>
    rw [hsp] at h
    cases s with
    | nil => simp at h
    | cons b s1 =>
      simp only [Except.ok.injEq, Prod.mk.injEq] at h
      obtain ⟨-, h2, h3⟩ := h
      subst h2
      subst h3
      simp only [List.length_cons, List.length_nil, List.length_singleton]
      omega

theorem eatLine_ok_length {s : List Nat} {e : GoErr} {rest : List Nat}
    (h : eatLine s e = .ok rest) : rest.length < s.length := by
  unfold eatLine at h
  cases hrl : readLine s e with
  | error er => rw [hrl] at h; simp at h
  | ok t =>
    rw [hrl] at h
    simp only [Except.ok.injEq] at h
    subst h
    exact (readLine_ok_length (show readLine s e = .ok (t.1, t.2.1, t.2.2) from by rw [hrl])).1

theorem afterEat_cont_length {endE : GoErr} {la : List Nat} {ee : Event} {s : List Nat}
    {last' : List Nat} {ev' : Event} {s' : List Nat}
    (h : afterEat endE la ee s = .cont last' ev' s') : s'.length < s.length := by
  unfold afterEat at h
  cases hel : eatLine s endE with
  | error er => rw [hel] at h; simp at h
  | ok s4 =>
    rw [hel] at h
    simp only [StepRes.cont.injEq] at h
    obtain ⟨-, -, h3⟩ := h
    subst h3
    exact eatLine_ok_length hel

theorem receiveStep_cont_length {endE : GoErr} {last : List Nat} {ev : Event} {s : List Nat}
    {last' : List Nat} {ev' : Event} {s' : List Nat}
    (h : receiveStep endE last ev s = .cont last' ev' s') : s'.length < s.length := by
  cases s with
  | nil => simp [receiveStep] at h
  | cons b s1 =>
    simp only [receiveStep, List.length_cons] at h ⊢
    by_cases hb10 : b = 10
    · rw [if_pos hb10] at h
      by_cases hd : dataLen ev.data = 0
      · rw [if_pos hd] at h
        simp only [StepRes.cont.injEq] at h
        obtain ⟨-, -, h3⟩ := h
        subst h3
        omega
      · rw [if_neg hd] at h
        simp at h
    · rw [if_neg hb10] at h
      by_cases hbe : b = 101
      · rw [if_pos hbe] at h
        cases hrf : readFieldName [118, 101, 110, 116] s1 endE with
        | error er => rw [hrf] at h; simp at h
        | ok p =>
          obtain ⟨fl, s2⟩ := p
          rw [hrf] at h
          dsimp only at h
          have hs2 : s2.length ≤ s1.length := readFieldName_ok_length hrf
          cases fl with
          | false =>
            rw [if_neg (by simp : ¬(false = true))] at h
            have := afterEat_cont_length h
            omega
          | true =>
            rw [if_pos rfl] at h
            cases hrs : readStringNL s2 endE with
            | error er => rw [hrs] at h; simp at h
            | ok q =>
              obtain ⟨full, s3⟩ := q
              rw [hrs] at h
              dsimp only at h
              have hs3 : s3.length < s2.length := readStringNL_ok_length hrs
              have := afterEat_cont_length h
              simp only [List.length_cons] at this
              omega
      · rw [if_neg hbe] at h
        by_cases hbd : b = 100
        · rw [if_pos hbd] at h
          cases hrf : readFieldName [97, 116, 97] s1 endE with
          | error er => rw [hrf] at h; simp at h
          | ok p =>
            obtain ⟨fl, s2⟩ := p
            rw [hrf] at h
            dsimp only at h
            have hs2 : s2.length ≤ s1.length := readFieldName_ok_length hrf
            cases fl with
            | false =>
              rw [if_neg (by simp : ¬(false = true))] at h
              have := afterEat_cont_length h
              omega
            | true =>
              rw [if_pos rfl] at h
              cases hrl : readLine s2 endE with
              | error er => rw [hrl] at h; simp at h
              | ok q =>
                obtain ⟨dat, rest2, push⟩ := q
                rw [hrl] at h
                dsimp only at h
                have hpush : push.length ≤ s2.length := (readLine_ok_length hrl).2
                by_cases hsz : MaxEventDataSize ≤ dataLen (appendD ev.data dat) + dat.length
                · rw [if_pos hsz] at h
                  simp at h
                · rw [if_neg hsz] at h
                  have := afterEat_cont_length h
                  omega
        · rw [if_neg hbd] at h
          by_cases hbi : b = 105
          · rw [if_pos hbi] at h
            cases hrf : readFieldName [100] s1 endE with
            | error er => rw [hrf] at h; simp at h
            | ok p =>
              obtain ⟨fl, s2⟩ := p
              rw [hrf] at h
              dsimp only at h
              have hs2 : s2.length ≤ s1.length := readFieldName_ok_length hrf
              cases fl with
              | false =>
                rw [if_neg (by simp : ¬(false = true))] at h
                have := afterEat_cont_length h
                omega
              | true =>
                rw [if_pos rfl] at h
                cases hrs : readStringNL s2 endE with
                | error er => rw [hrs] at h; simp at h
                | ok q =>
                  obtain ⟨full, s3⟩ := q
                  rw [hrs] at h
                  dsimp only at h
                  have hs3 : s3.length < s2.length := readStringNL_ok_length hrs
                  have := afterEat_cont_length h
                  simp only [List.length_cons] at this
                  omega
          · rw [if_neg hbi] at h
            by_cases hbr : b = 114
            · rw [if_pos hbr] at h
              cases hrf : readFieldName [101, 116, 114, 121] s1 endE with
              | error er => rw [hrf] at h; simp at h
              | ok p =>
                obtain ⟨fl, s2⟩ := p
                rw [hrf] at h
                dsimp only at h
                have hs2 : s2.length ≤ s1.length := readFieldName_ok_length hrf
                cases fl with
                | false =>
                  rw [if_neg (by simp : ¬(false = true))] at h
                  have := afterEat_cont_length h
                  omega
                | true =>
                  rw [if_pos rfl] at h
                  cases hrs : readStringNL s2 endE with
                  | error er => rw [hrs] at h; simp at h
                  | ok q =>
                    obtain ⟨full, s3⟩ := q
                    rw [hrs] at h
                    dsimp only at h
                    have hs3 : s3.length < s2.length := readStringNL_ok_length hrs
                    cases hpi : parseGoInt (trimNL full) with
                    | none =>
                      rw [hpi] at h
                      have := afterEat_cont_length h
                      simp only [List.length_cons] at this
                      omega
                    | some v =>
                      rw [hpi] at h
                      have := afterEat_cont_length h
                      simp only [List.length_cons] at this
                      omega
            · rw [if_neg hbr] at h
              by_cases hbb : b = 239
              · rw [if_pos hbb] at h
                cases s1 with
                | nil => simp at h
                | cons b2 s2 =>
                  dsimp only at h
                  by_cases hb2 : b2 ≠ 187
                  · rw [if_pos hb2] at h
                    have := afterEat_cont_length h
                    simp only [List.length_cons]
                    omega
                  · rw [if_neg hb2] at h
                    cases s2 with
                    | nil => simp at h
                    | cons b3 s3 =>
                      dsimp only at h
                      by_cases hb3 : b3 ≠ 191
                      · rw [if_pos hb3] at h
                        have := afterEat_cont_length h
                        simp only [List.length_cons]
                        omega
                      · rw [if_neg hb3] at h
                        simp only [StepRes.cont.injEq] at h
                        obtain ⟨-, -, h3⟩ := h
                        subst h3
                        simp only [List.length_cons]
                        omega
              · rw [if_neg hbb] at h
                have := afterEat_cont_length h
                omega

theorem receiveLoop_fuel_irrel (endE : GoErr) :
    ∀ (f f' : Nat) (last : List Nat) (ev : Event) (s : List Nat),
      s.length < f → s.length < f' →
      receiveLoop endE f last ev s = receiveLoop endE f' last ev s := by
  intro f
  induction f with
  | zero =>
    intro f' last ev s hf hf'
    omega
  | succ a ih =>
    intro f' last ev s hf hf'
    cases f' with
    | zero => omega
    | succ b =>
      simp only [receiveLoop]
      cases hst : receiveStep endE last ev s with
      | done r => rfl
      | cont l' e' s' =>
        have hlt := receiveStep_cont_length hst
        exact ih b l' e' s' (by omega) (by omega)

theorem receiveLoop_done {endE : GoErr} {last : List Nat} {ev : Event} {s : List Nat}
    {r : List Nat × Except GoErr (Event × List Nat)} {f : Nat}
    (hst : receiveStep endE last ev s = .done r) (hf : s.length < f) :
    receiveLoop endE f last ev s = some r := by
  cases f with
  | zero => omega
  | succ a =>
    simp only [receiveLoop]
    rw [hst]

theorem receiveLoop_cont {endE : GoErr} {last : List Nat} {ev : Event} {s : List Nat}
    {last' : List Nat} {ev' : Event} {s' : List Nat} {f : Nat}
    (hst : receiveStep endE last ev s = .cont last' ev' s') (hf : s.length < f) :
    receiveLoop endE f last ev s = receiveLoop endE (s'.length + 1) last' ev' s' := by
  cases f with
  | zero => omega
  | succ a =>
    simp only [receiveLoop]
    rw [hst]
    exact receiveLoop_fuel_irrel endE a (s'.length + 1) last' ev' s'
      (by have := receiveStep_cont_length hst; omega) (by omega)

theorem receive_eq {endE : GoErr} {last : List Nat} {buf : Option (List Nat)} {s : List Nat}
    {r : List Nat × Except GoErr (Event × List Nat)}
    (h : receiveLoop endE (s.length + 1) last
      { event := [], data := buf.map (fun _ => ([] : List Nat)), id := [], retry := 0 } s = some r) :
    receive endE last buf s = r := by
  unfold receive
  dsimp only
  rw [h]

/-! ### Behaviour of a single loop iteration on each kind of line -/

theorem appendD_nil (d : Option (List Nat)) : appendD d [] = d := by
  cases d <;> simp [appendD]

theorem eatLine_nl (r : List Nat) (endE : GoErr) : eatLine (10 :: r) endE = .ok r := by
  simp [eatLine, readLine, splitNL]

theorem stepBlank (endE : GoErr) (last : List Nat) (ev : Event) (s : List Nat) :
    receiveStep endE last ev (10 :: s) =
      if dataLen ev.data = 0 then .cont last ev s
      else .done (last, .ok (stripOne ev, s)) := by
  simp [receiveStep]

theorem stepEvent {t : List Nat} (endE : GoErr) (last : List Nat) (ev : Event)
    (rest : List Nat) (h : 10 ∉ t) :
    receiveStep endE last ev ([101, 118, 101, 110, 116, 58, 32] ++ t ++ 10 :: rest) =
      .cont last { ev with event := t } rest := by
  have h1 : readFieldName [118, 101, 110, 116] ([118, 101, 110, 116, 58, 32] ++ (t ++ 10 :: rest)) endE
      = .ok (true, t ++ 10 :: rest) := by
    simp [readFieldName]
  have h2 : readStringNL (t ++ 10 :: rest) endE = .ok (t ++ [10], rest) := by
    simp [readStringNL, splitNL_append_nl t rest h]
  simp only [List.cons_append, List.append_assoc] at h1 ⊢
  simp only [receiveStep, h1, h2]
  simp [afterEat, eatLine_nl, trimNL_concat]

theorem stepId {t : List Nat} (endE : GoErr) (last : List Nat) (ev : Event)
    (rest : List Nat) (h : 10 ∉ t) :
    receiveStep endE last ev ([105, 100, 58, 32] ++ t ++ 10 :: rest) =
      .cont t { ev with id := t } rest := by
  have h1 : readFieldName [100] ([100, 58, 32] ++ (t ++ 10 :: rest)) endE
      = .ok (true, t ++ 10 :: rest) := by
    simp [readFieldName]
  have h2 : readStringNL (t ++ 10 :: rest) endE = .ok (t ++ [10], rest) := by
    simp [readStringNL, splitNL_append_nl t rest h]
  simp only [List.cons_append, List.append_assoc] at h1 ⊢
  simp only [receiveStep, h1, h2]
  simp [afterEat, eatLine_nl, trimNL_concat]

theorem stepRetry {t : List Nat} (endE : GoErr) (last : List Nat) (ev : Event)
    (rest : List Nat) (h : 10 ∉ t) :
    receiveStep endE last ev ([114, 101, 116, 114, 121, 58, 32] ++ t ++ 10 :: rest) =
      match parseGoInt t with
      | none => .cont last ev rest
      | some v => .cont last { ev with retry := v } rest := by
  have h1 : readFieldName [101, 116, 114, 121] ([101, 116, 114, 121, 58, 32] ++ (t ++ 10 :: rest)) endE
      = .ok (true, t ++ 10 :: rest) := by
    simp [readFieldName]
  have h2 : readStringNL (t ++ 10 :: rest) endE = .ok (t ++ [10], rest) := by
    simp [readStringNL, splitNL_append_nl t rest h]
  simp only [List.cons_append, List.append_assoc] at h1 ⊢
  simp only [receiveStep, h1, h2, trimNL_concat]
  cases parseGoInt t <;> simp [afterEat, eatLine_nl]

theorem stepData {t : List Nat} (endE : GoErr) (last : List Nat) (ev : Event)
    (rest : List Nat) (h : 10 ∉ t) :
    receiveStep endE last ev ([100, 97, 116, 97, 58, 32] ++ t ++ 10 :: rest) =
      if MaxEventDataSize ≤ dataLen (appendD ev.data (stripCR t)) + (stripCR t).length then
        .done (last, .error .dataTooBig)
      else .cont last { ev with data := appendD (appendD ev.data (stripCR t)) [10] } rest := by
  have h1 : readFieldName [97, 116, 97] ([97, 116, 97, 58, 32] ++ (t ++ 10 :: rest)) endE
      = .ok (true, t ++ 10 :: rest) := by
    simp [readFieldName]
  have h2 : readLine (t ++ 10 :: rest) endE = .ok (stripCR t, rest, 10 :: rest) := by
    simp [readLine, splitNL_append_nl t rest h]
  simp only [List.cons_append, List.append_assoc, List.nil_append] at h1 ⊢
  by_cases hsz : MaxEventDataSize ≤ dataLen (appendD ev.data (stripCR t)) + (stripCR t).length
  · simp [receiveStep, h1, h2, hsz]
  · simp [receiveStep, h1, h2, hsz, afterEat, eatLine_nl]

theorem stepDataNoSpace (endE : GoErr) (last : List Nat) (ev : Event) (rest : List Nat) :
    receiveStep endE last ev ([100, 97, 116, 97, 58] ++ 10 :: rest) =
      if MaxEventDataSize ≤ dataLen ev.data then .done (last, .error .dataTooBig)
      else .cont last { ev with data := appendD ev.data [10] } rest := by
  have h1 : readFieldName [97, 116, 97] ([97, 116, 97, 58] ++ 10 :: rest) endE
      = .ok (true, 10 :: rest) := by
    simp [readFieldName]
  have h2 : readLine (10 :: rest) endE = .ok ([], rest, 10 :: rest) := by
    simp [readLine, splitNL, stripCR]
  simp only [List.cons_append, List.append_assoc, List.nil_append] at h1 ⊢
  by_cases hsz : MaxEventDataSize ≤ dataLen ev.data
  · simp [receiveStep, h1, h2, appendD_nil, hsz]
  · simp [receiveStep, h1, h2, appendD_nil, hsz, afterEat, eatLine_nl]

theorem stepComment {t : List Nat} (endE : GoErr) (last : List Nat) (ev : Event)
    (rest : List Nat) (h : 10 ∉ t) :
    receiveStep endE last ev (58 :: (t ++ 10 :: rest)) = .cont last ev rest := by
  simp only [receiveStep]
  norm_num
  simp [afterEat, eatLine, readLine, splitNL_append_nl t rest h]

theorem stepBOM (endE : GoErr) (last : List Nat) (ev : Event) (rest : List Nat) :
    receiveStep endE last ev (239 :: 187 :: 191 :: rest) = .cont last ev rest := by
  simp [receiveStep]

/-! ### Decimal formatting and parsing -/

theorem digitsVal_append (xs ys : List Nat) (acc : Nat) :
    digitsVal (xs ++ ys) acc =
      match digitsVal xs acc with
      | none => none
      | some a => digitsVal ys a := by
  induction xs generalizing acc with
  | nil => simp [digitsVal]
  | cons d ds ih =>
    simp only [List.cons_append, digitsVal]
    by_cases hd : 48 ≤ d ∧ d ≤ 57
    · rw [if_pos hd, if_pos hd]
      exact ih _
    · rw [if_neg hd, if_neg hd]

theorem natDigitsAux_spec :
    ∀ (f n acc : Nat), n < f →
      digitsVal (natDigitsAux f n) acc =
        some (acc * 10 ^ (natDigitsAux f n).length + n) := by
  intro f
  induction f with
  | zero => omega
  | succ a ih =>
    intro n acc hn
    by_cases h10 : n < 10
    · simp only [natDigitsAux, if_pos h10, digitsVal, List.length_singleton]
      rw [if_pos ⟨by omega, by omega⟩]
      congr 1
      simp [pow_one]
    · simp only [natDigitsAux, if_neg h10]
      rw [digitsVal_append]
      rw [ih (n / 10) acc (by omega)]
      simp only [digitsVal]
      rw [if_pos ⟨by omega, by omega⟩]
      simp only [List.length_append, List.length_singleton]
      congr 1
      rw [pow_succ, ← mul_assoc]
      generalize acc * 10 ^ (natDigitsAux a (n / 10)).length = X
      omega

theorem natDigitsAux_digits :
    ∀ (f n : Nat), n < f → ∀ b ∈ natDigitsAux f n, 48 ≤ b ∧ b ≤ 57 := by
  intro f
  induction f with
  | zero => omega
  | succ a ih =>
    intro n hn b hb
    by_cases h10 : n < 10
    · simp only [natDigitsAux, if_pos h10, List.mem_singleton] at hb
      omega
    · simp only [natDigitsAux, if_neg h10, List.mem_append, List.mem_singleton] at hb
      rcases hb with hb | hb
      · exact ih (n / 10) (by omega) b hb
      · omega

theorem natDigits_ne_nil (n : Nat) : natDigits n ≠ [] := by
  unfold natDigits natDigitsAux
  by_cases h10 : n < 10
  · simp [if_pos h10]
  · simp [if_neg h10]

theorem digitsVal_natDigits (n : Nat) : digitsVal (natDigits n) 0 = some n := by
  rw [natDigits, natDigitsAux_spec (n + 1) n 0 (by omega)]
  simp

theorem parseGoInt_intDec (i : Int) (h1 : -(2 ^ 63) ≤ i) (h2 : i < 2 ^ 63) :
    parseGoInt (intDec i) = some i := by
  unfold intDec
  by_cases hi : i < 0
  · rw [if_pos hi]
    obtain ⟨d, ds, hds⟩ := List.exists_cons_of_ne_nil (natDigits_ne_nil (-i).toNat)
    have hdv : digitsVal (d :: ds) 0 = some (-i).toNat := by
      rw [← hds]
      exact digitsVal_natDigits _
    have hle : (-i).toNat ≤ 2 ^ 63 := by omega
    rw [hds]
    simp only [parseGoInt, if_true]
    rw [hdv]
    dsimp only
    rw [if_pos hle]
    congr 1
    omega
  · rw [if_neg hi]
    obtain ⟨d, ds, hds⟩ := List.exists_cons_of_ne_nil (natDigits_ne_nil i.toNat)
    have hdv : digitsVal (d :: ds) 0 = some i.toNat := by
      rw [← hds]
      exact digitsVal_natDigits _
    have hdig := natDigitsAux_digits (i.toNat + 1) i.toNat (by omega) d
      (by rw [show natDigitsAux (i.toNat + 1) i.toNat = natDigits i.toNat from rfl, hds]; simp)
    have hlt : i.toNat < 2 ^ 63 := by omega
    rw [hds]
    simp only [parseGoInt]
    rw [if_neg (by omega : ¬ d = 45), if_neg (by omega : ¬ d = 43)]
    rw [hdv]
    dsimp only
    rw [if_pos hlt]
    congr 1
    omega

/-! ### The data block: segment lists -/

theorem appendD_length (d : Option (List Nat)) (x : List Nat) :
    dataLen (appendD d x) = dataLen d + x.length := by
  cases d with
  | none => cases x <;> simp [appendD, dataLen]
  | some l => simp [appendD, dataLen]

theorem appendD_append (d : Option (List Nat)) (x y : List Nat) :
    appendD (appendD d x) y = appendD d (x ++ y) := by
  cases d with
  | none =>
    cases x with
    | nil => simp [appendD]
    | cons b bs =>
      cases y <;> simp [appendD]
  | some l =>
    cases y <;> simp [appendD]





theorem sendDataAux_eq_emit (d : List Nat) :
    ∀ cur, sendDataAux cur d = emitLines (segsAux cur d) := by
  induction d with
  | nil => intro cur; simp [sendDataAux, segsAux, emitLines]
  | cons b rest ih =>
    intro cur
    by_cases hb : b = 10
    · subst hb
      by_cases hr : rest = []
      · subst hr
        simp [sendDataAux, segsAux, emitLines]
      · simp only [sendDataAux, segsAux, if_pos rfl, if_neg hr, ih]
        simp [emitLines]
    · simp only [sendDataAux, segsAux, if_neg hb, ih]

theorem flattenSegs_segsAux (d : List Nat) :
    ∀ cur, flattenSegs (segsAux cur d) =
      cur ++ d ++ (if d.getLast? = some 10 then [] else [10]) := by
  induction d with
  | nil => intro cur; simp [segsAux, flattenSegs]
  | cons b rest ih =>
    intro cur
    by_cases hb : b = 10
    · subst hb
      by_cases hr : rest = []
      · subst hr
        simp [segsAux, flattenSegs]
      · have hseg : segsAux cur (10 :: rest) = cur :: segsAux [] rest := by
          simp [segsAux, hr]
        have hlast : (10 :: rest).getLast? = rest.getLast? := by
          cases rest with
          | nil => exact absurd rfl hr
          | cons c cs => simp [List.getLast?_cons_cons]
        rw [hseg, hlast]
        simp only [flattenSegs, List.foldr_cons] at ih ⊢
        rw [ih []]
        simp
    · have hseg : segsAux cur (b :: rest) = segsAux (cur ++ [b]) rest := by
        simp [segsAux, hb]
      rw [hseg, ih]
      by_cases hr : rest = []
      · subst hr
        simp [hb]
      · have hlast : (b :: rest).getLast? = rest.getLast? := by
          cases rest with
          | nil => exact absurd rfl hr
          | cons c cs => simp [List.getLast?_cons_cons]
        rw [hlast]
        simp

theorem segsAux_no_nl (d : List Nat) :
    ∀ cur, 10 ∉ cur → ∀ l ∈ segsAux cur d, 10 ∉ l := by
  induction d with
  | nil =>
    intro cur hcur l hl
    simp [segsAux] at hl
    subst hl
    exact hcur
  | cons b rest ih =>
    intro cur hcur l hl
    by_cases hb : b = 10
    · subst hb
      rw [segsAux, if_pos rfl] at hl
      simp only [List.mem_cons] at hl
      rcases hl with hl | hl
      · subst hl; exact hcur
      · by_cases hr : rest = []
        · rw [if_pos hr] at hl; simp at hl
        · rw [if_neg hr] at hl
          exact ih [] (by simp) l hl
    · rw [segsAux, if_neg hb] at hl
      exact ih (cur ++ [b]) (by simp [hcur, Ne.symm hb, hb]) l hl

theorem rlDataLines (endE : GoErr) (last : List Nat) :
    ∀ (ss : List (List Nat)) (ev : Event) (rest : List Nat) (f : Nat),
      (∀ l ∈ ss, 10 ∉ l ∧ l.getLast? ≠ some 13) →
      dataLen ev.data + 2 * (flattenSegs ss).length + 1 ≤ MaxEventDataSize →
      (emitLines ss ++ rest).length < f →
      receiveLoop endE f last ev (emitLines ss ++ rest) =
        receiveLoop endE (rest.length + 1) last
          { ev with data := appendD ev.data (flattenSegs ss) } rest := by
  intro ss
  induction ss with
  | nil =>
    intro ev rest f hcr hsz hf
    simp only [emitLines, List.foldr_nil, List.nil_append] at hf ⊢
    rw [show flattenSegs [] = [] from rfl, appendD_nil]
    exact receiveLoop_fuel_irrel endE f (rest.length + 1) last ev rest hf (by omega)
  | cons l ss ih =>
    intro ev rest f hcr hsz hf
    obtain ⟨hl10, hl13⟩ := hcr l (by simp)
    have hscr : stripCR l = l := stripCR_of_ne hl13
    have hshape : emitLines (l :: ss) ++ rest
        = [100, 97, 116, 97, 58, 32] ++ l ++ 10 :: (emitLines ss ++ rest) := by
      simp [emitLines]
    have hflat : flattenSegs (l :: ss) = l ++ 10 :: flattenSegs ss := by
      simp [flattenSegs]
    have hflen : (flattenSegs (l :: ss)).length
        = l.length + 1 + (flattenSegs ss).length := by
      rw [hflat]
      simp
      omega
    rw [hshape] at hf ⊢
    have hstep := stepData endE last ev (emitLines ss ++ rest) hl10
    rw [hscr] at hstep
    have hsz1 : ¬ (MaxEventDataSize ≤ dataLen (appendD ev.data l) + l.length) := by
      rw [appendD_length]
      rw [hflen] at hsz
      omega
    rw [if_neg hsz1] at hstep
    rw [receiveLoop_cont hstep hf]
    rw [ih { ev with data := appendD (appendD ev.data l) [10] } rest
      ((emitLines ss ++ rest).length + 1)
      (fun x hx => hcr x (by simp [hx]))
      (by
        dsimp only
        rw [appendD_length, appendD_length]
        rw [hflen] at hsz
        simp only [List.length_singleton]
        omega)
      (by omega)]
    have hE : ({ { ev with data := appendD (appendD ev.data l) [10] } with
          data := appendD (appendD (appendD ev.data l) [10]) (flattenSegs ss) } : Event)
        = { ev with data := appendD ev.data (flattenSegs (l :: ss)) } := by
      rw [appendD_append, appendD_append, hflat]
      simp
    rw [hE]

/-! ### Decoding the blocks produced by `Send` -/

theorem intDec_no_nl (i : Int) : 10 ∉ intDec i := by
  unfold intDec
  by_cases hi : i < 0
  · rw [if_pos hi]
    intro hm
    simp only [List.mem_cons] at hm
    rcases hm with h | h
    · omega
    · unfold natDigits at h
      have := natDigitsAux_digits ((-i).toNat + 1) (-i).toNat (by omega) 10 h
      omega
  · rw [if_neg hi]
    intro hm
    unfold natDigits at hm
    have := natDigitsAux_digits (i.toNat + 1) i.toNat (by omega) 10 hm
    omega

theorem rlOptEvent (endE : GoErr) (last : List Nat) (ev : Event) (t rest : List Nat) (f : Nat)
    (h10 : 10 ∉ t) (hev0 : ev.event = [])
    (hf : ((if t = [] then [] else [101, 118, 101, 110, 116, 58, 32] ++ t ++ [10]) ++ rest).length < f) :
    receiveLoop endE f last ev
        ((if t = [] then [] else [101, 118, 101, 110, 116, 58, 32] ++ t ++ [10]) ++ rest)
      = receiveLoop endE (rest.length + 1) last { ev with event := t } rest := by
  by_cases ht : t = []
  · subst ht
    simp only [if_pos rfl, List.nil_append] at hf ⊢
    have he : ({ ev with event := ([] : List Nat) } : Event) = ev := by rw [← hev0]
    rw [he]
    exact receiveLoop_fuel_irrel endE f (rest.length + 1) last ev rest hf (by omega)
  · rw [if_neg ht] at hf ⊢
    have hsh : ([101, 118, 101, 110, 116, 58, 32] ++ t ++ [10]) ++ rest
        = [101, 118, 101, 110, 116, 58, 32] ++ t ++ 10 :: rest := by
      simp
    rw [hsh] at hf ⊢
    exact receiveLoop_cont (stepEvent endE last ev rest h10) hf

theorem rlOptId (endE : GoErr) (last : List Nat) (ev : Event) (t rest : List Nat) (f : Nat)
    (h10 : 10 ∉ t) (hid0 : ev.id = [])
    (hf : ((if t = [] then [] else [105, 100, 58, 32] ++ t ++ [10]) ++ rest).length < f) :
    receiveLoop endE f last ev
        ((if t = [] then [] else [105, 100, 58, 32] ++ t ++ [10]) ++ rest)
      = receiveLoop endE (rest.length + 1) (if t = [] then last else t) { ev with id := t } rest := by
  by_cases ht : t = []
  · subst ht
    simp only [if_pos rfl, List.nil_append] at hf ⊢
    have he : ({ ev with id := ([] : List Nat) } : Event) = ev := by rw [← hid0]
    rw [he]
    exact receiveLoop_fuel_irrel endE f (rest.length + 1) last ev rest hf (by omega)
  · simp only [if_neg ht] at hf ⊢
    have hsh : ([105, 100, 58, 32] ++ t ++ [10]) ++ rest
        = [105, 100, 58, 32] ++ t ++ 10 :: rest := by
      simp
    rw [hsh] at hf ⊢
    exact receiveLoop_cont (stepId endE last ev rest h10) hf

theorem rlOptRetry (endE : GoErr) (last : List Nat) (ev : Event) (i : Int) (rest : List Nat) (f : Nat)
    (hr1 : -(2 ^ 63) ≤ i) (hr2 : i < 2 ^ 63) (hr0 : ev.retry = 0)
    (hf : ((if i = 0 then [] else [114, 101, 116, 114, 121, 58, 32] ++ intDec i ++ [10]) ++ rest).length < f) :
    receiveLoop endE f last ev
        ((if i = 0 then [] else [114, 101, 116, 114, 121, 58, 32] ++ intDec i ++ [10]) ++ rest)
      = receiveLoop endE (rest.length + 1) last { ev with retry := i } rest := by
  by_cases hi : i = 0
  · subst hi
    simp only [if_pos rfl, List.nil_append] at hf ⊢
    have he : ({ ev with retry := (0 : Int) } : Event) = ev := by rw [← hr0]
    rw [he]
    exact receiveLoop_fuel_irrel endE f (rest.length + 1) last ev rest hf (by omega)
  · rw [if_neg hi] at hf ⊢
    have hsh : ([114, 101, 116, 114, 121, 58, 32] ++ intDec i ++ [10]) ++ rest
        = [114, 101, 116, 114, 121, 58, 32] ++ intDec i ++ 10 :: rest := by
      simp
    rw [hsh] at hf ⊢
    have hstep := stepRetry endE last ev rest (intDec_no_nl i)
    rw [parseGoInt_intDec i hr1 hr2] at hstep
    exact receiveLoop_cont hstep hf

theorem appendD_of_zero {d0 : Option (List Nat)} (h : dataLen d0 = 0) {x : List Nat}
    (hx : x ≠ []) : appendD d0 x = some x := by
  cases d0 with
  | none =>
    cases x with
    | nil => exact absurd rfl hx
    | cons b bs => rfl
  | some l =>
    simp only [dataLen, List.length_eq_zero] at h
    subst h
    simp [appendD]

theorem dropLast_append_nl {d : List Nat} (hne : d ≠ []) (h : d.getLast? = some 10) :
    d.dropLast ++ [10] = d := by
  have h1 := List.dropLast_append_getLast hne
  have h2 : d.getLast hne = 10 := by
    rw [List.getLast?_eq_getLast_of_ne_nil hne] at h
    simpa using h
  rw [← h2]
  exact h1

theorem rlDataBlock (endE : GoErr) (last : List Nat) (ev : Event) (d rest : List Nat) (f : Nat)
    (hne : d ≠ [])
    (hcr : ∀ l ∈ segs (if d.getLast? = some 10 then d.dropLast else d), l.getLast? ≠ some 13)
    (hnl : d.getLast? = some 10 → d.dropLast ≠ [] ∧ d.dropLast.getLast? ≠ some 10)
    (hd0 : dataLen ev.data = 0)
    (hsz : 2 * d.length + 3 ≤ MaxEventDataSize)
    (hf : (sendData (if d.getLast? = some 10 then d.dropLast else d)
        ++ ((if d.getLast? = some 10 then [100, 97, 116, 97, 58, 10] else []) ++ rest)).length < f) :
    receiveLoop endE f last ev
        (sendData (if d.getLast? = some 10 then d.dropLast else d)
          ++ ((if d.getLast? = some 10 then [100, 97, 116, 97, 58, 10] else []) ++ rest))
      = receiveLoop endE (rest.length + 1) last
          { ev with data := appendD ev.data (d ++ [10]) } rest := by
  by_cases hend : d.getLast? = some 10
  · obtain ⟨hne2, hend2⟩ := hnl hend
    simp only [if_pos hend] at hcr hf ⊢
    have hsd : sendData d.dropLast = emitLines (segs d.dropLast) := by
      rw [sendData, if_neg hne2, segs, if_neg hne2, sendDataAux_eq_emit]
    have hflat : flattenSegs (segs d.dropLast) = d.dropLast ++ [10] := by
      rw [segs, if_neg hne2, flattenSegs_segsAux]
      simp [hend2]
    have h10 : ∀ l ∈ segs d.dropLast, 10 ∉ l ∧ l.getLast? ≠ some 13 := by
      intro l hl
      refine ⟨?_, hcr l hl⟩
      rw [segs, if_neg hne2] at hl
      exact segsAux_no_nl d.dropLast [] (by simp) l hl
    have hsize : dataLen ev.data + 2 * (flattenSegs (segs d.dropLast)).length + 1
        ≤ MaxEventDataSize := by
      rw [hflat]
      simp only [List.length_append, List.length_singleton, List.length_dropLast]
      omega
    rw [hsd] at hf ⊢
    have hmain := rlDataLines endE last (segs d.dropLast) ev
      ([100, 97, 116, 97, 58, 10] ++ rest) f h10 hsize hf
    rw [hflat] at hmain
    rw [hmain]
    have hdl : dataLen (appendD ev.data (d.dropLast ++ [10])) = d.length := by
      rw [appendD_length]
      simp only [List.length_append, List.length_singleton, List.length_dropLast]
      have : 1 ≤ d.length := by
        cases d with
        | nil => exact absurd rfl hne
        | cons a as => simp
      omega
    have hstep := stepDataNoSpace endE last
      ({ ev with data := appendD ev.data (d.dropLast ++ [10]) }) rest
    dsimp only at hstep
    rw [if_neg (by rw [hdl]; omega : ¬ (MaxEventDataSize ≤ dataLen (appendD ev.data (d.dropLast ++ [10]))))] at hstep
    have hsh : [100, 97, 116, 97, 58, 10] ++ rest = [100, 97, 116, 97, 58] ++ 10 :: rest := by
      simp
    rw [hsh]
    rw [receiveLoop_cont hstep (by omega)]
    have hE : ({ { ev with data := appendD ev.data (d.dropLast ++ [10]) } with
          data := appendD (appendD ev.data (d.dropLast ++ [10])) [10] } : Event)
        = { ev with data := appendD ev.data (d ++ [10]) } := by
      rw [appendD_append, dropLast_append_nl hne hend]
    rw [hE]
  · simp only [if_neg hend, List.nil_append] at hcr hf ⊢
    have hsd : sendData d = emitLines (segs d) := by
      rw [sendData, if_neg hne, segs, if_neg hne, sendDataAux_eq_emit]
    have hflat : flattenSegs (segs d) = d ++ [10] := by
      rw [segs, if_neg hne, flattenSegs_segsAux]
      simp [hend]
    have h10 : ∀ l ∈ segs d, 10 ∉ l ∧ l.getLast? ≠ some 13 := by
      intro l hl
      refine ⟨?_, hcr l hl⟩
      rw [segs, if_neg hne] at hl
      exact segsAux_no_nl d [] (by simp) l hl
    have hsize : dataLen ev.data + 2 * (flattenSegs (segs d)).length + 1
        ≤ MaxEventDataSize := by
      rw [hflat]
      simp only [List.length_append, List.length_singleton]
      omega
    rw [hsd] at hf ⊢
    have hmain := rlDataLines endE last (segs d) ev rest f h10 hsize hf
    rw [hflat] at hmain
    exact hmain

theorem stripOne_concat (ev : Event) (l : List Nat) (h : ev.data = some (l ++ [10])) :
    stripOne ev = { ev with data := some l } := by
  unfold stripOne
  rw [h]
  simp [List.getLast?_concat, List.dropLast_concat]

theorem sendReceive_roundtrip (endE : GoErr) (last : List Nat) (buf : Option (List Nat))
    (e : Event) (d : List Nat)
    (hd : e.data = some d) (hne : d ≠ [])
    (hev : 10 ∉ e.event) (hid : 10 ∉ e.id)
    (hr1 : -(2 ^ 63) ≤ e.retry) (hr2 : e.retry < 2 ^ 63)
    (hsz : 2 * d.length + 3 ≤ MaxEventDataSize)
    (hcr : ∀ l ∈ segs (if d.getLast? = some 10 then d.dropLast else d), l.getLast? ≠ some 13)
    (hnl : d.getLast? = some 10 → d.dropLast ≠ [] ∧ d.dropLast.getLast? ≠ some 10) :
    receive endE last buf (send e) = ((if e.id = [] then last else e.id), .ok (e, [])) := by
  have hz : e.isZero = false := by
    simp [Event.isZero, hd]
  have hsend : send e
      = (if e.event = [] then [] else [101, 118, 101, 110, 116, 58, 32] ++ e.event ++ [10])
        ++ ((if e.id = [] then [] else [105, 100, 58, 32] ++ e.id ++ [10])
        ++ ((if e.retry = 0 then [] else [114, 101, 116, 114, 121, 58, 32] ++ intDec e.retry ++ [10])
        ++ (sendData (if d.getLast? = some 10 then d.dropLast else d)
        ++ ((if d.getLast? = some 10 then [100, 97, 116, 97, 58, 10] else []) ++ [10])))) := by
    rw [send, hd]
    rw [if_neg (by rw [hz]; exact Bool.false_ne_true)]
    simp only [Option.getD_some]
    rw [← apply_ite sendData]
    simp only [List.append_assoc]
  refine receive_eq ?_
  rw [hsend]
  have hd0 : dataLen (Option.map (fun _ => ([] : List Nat)) buf) = 0 := by
    cases buf <;> rfl
  rw [rlOptEvent endE last _ e.event _ _ hev rfl (Nat.lt_succ_self _)]
  rw [rlOptId endE last _ e.id _ _ hid rfl (Nat.lt_succ_self _)]
  rw [rlOptRetry endE _ _ e.retry _ _ hr1 hr2 rfl (Nat.lt_succ_self _)]
  rw [rlDataBlock endE _ _ d [10] _ hne hcr hnl hd0 hsz (Nat.lt_succ_self _)]
  have hda : appendD (Option.map (fun _ => ([] : List Nat)) buf) (d ++ [10])
      = some (d ++ [10]) :=
    appendD_of_zero hd0 (by simp)
  dsimp only
  rw [hda]
  have hstep := stepBlank endE (if e.id = [] then last else e.id)
    ({ event := e.event, data := some (d ++ [10]), id := e.id, retry := e.retry }) []
  have hne0 : ¬ (dataLen ({ event := e.event, data := some (d ++ [10]), id := e.id, retry := e.retry } : Event).data = 0) := by
    simp [dataLen]
  rw [if_neg hne0] at hstep
  rw [receiveLoop_done hstep (Nat.lt_succ_self _)]
  have hstrip : stripOne
      ({ event := e.event, data := some (d ++ [10]), id := e.id, retry := e.retry } : Event)
      = { event := e.event, data := some d, id := e.id, retry := e.retry } :=
    stripOne_concat _ d rfl
  rw [hstrip, ← hd]


theorem rlKeepalives (endE : GoErr) :
    ∀ (n : Nat) (last : List Nat) (ev : Event) (f : Nat),
      dataLen ev.data = 0 →
      (repeatN n [58, 10, 10]).length < f →
      receiveLoop endE f last ev (repeatN n [58, 10, 10]) = some (last, .error endE) := by
  intro n
  induction n with
  | zero =>
    intro last ev f hd0 hf
    exact receiveLoop_done rfl hf
  | succ k ih =>
    intro last ev f hd0 hf
    have hsh : repeatN (k + 1) [58, 10, 10]
        = 58 :: ([] ++ 10 :: (10 :: repeatN k [58, 10, 10])) := by
      simp [repeatN]
    rw [hsh] at hf ⊢
    rw [receiveLoop_cont (stepComment endE last ev (10 :: repeatN k [58, 10, 10]) (by simp)) hf]
    have hstep := stepBlank endE last ev (repeatN k [58, 10, 10])
    rw [if_pos hd0] at hstep
    rw [receiveLoop_cont hstep (Nat.lt_succ_self _)]
    exact ih last ev _ hd0 (Nat.lt_succ_self _)

/-! ### Claim theorems -/

/-- C1 (counterexample): the round-trip property fails as stated.  The record
with only `ID = "a"` is non-zero, but decoding its encoding `"id: a\n\n"`
yields no record at all: the blank line ends a group with no data, so
`Receive` skips it and runs into the end of the stream. -/
theorem claim_c1_counterexample :
    Event.isZero { event := [], data := none, id := [97], retry := 0 } = false
    ∧ receive .eof [] none (send { event := [], data := none, id := [97], retry := 0 })
        = ([97], .error .eof) :=
  ⟨by decide, rfl⟩

/-- C1 (amended): encoding a record with `Send` and decoding the bytes with
`Receive` reproduces the record exactly in all four fields (data compared by
content, tri-state preserved), provided the record's data is present and
non-empty, the `event` and `id` strings contain no newline, `retry` is in
64-bit `int` range, the data is small enough for the decoder's size check
(`2·|data| + 3 ≤ 4 MiB`), no newline-separated segment of the trimmed payload
ends in a carriage return, and the payload does not end in two newlines (nor
consist of a single newline).  The decoder's `LastEventID` becomes the
record's `id` when one is present. -/
theorem claim_c1_theorem (endE : GoErr) (last : List Nat) (buf : Option (List Nat))
    (e : Event) (d : List Nat)
    (hd : e.data = some d) (hne : d ≠ [])
    (hev : 10 ∉ e.event) (hid : 10 ∉ e.id)
    (hr1 : -(2 ^ 63) ≤ e.retry) (hr2 : e.retry < 2 ^ 63)
    (hsz : 2 * d.length + 3 ≤ MaxEventDataSize)
    (hcr : ∀ l ∈ segs (if d.getLast? = some 10 then d.dropLast else d), l.getLast? ≠ some 13)
    (hnl : d.getLast? = some 10 → d.dropLast ≠ [] ∧ d.dropLast.getLast? ≠ some 10) :
    receive endE last buf (send e) = ((if e.id = [] then last else e.id), .ok (e, [])) :=
  sendReceive_roundtrip endE last buf e d hd hne hev hid hr1 hr2 hsz hcr hnl

/-- C1 (witness): concrete round trip for the record
`{event := "ev", data := "hi\n", id := "x", retry := 5}`. -/
theorem claim_c1_witness :
    receive .eof [] none
        (send { event := [101, 118], data := some [104, 105, 10], id := [120], retry := 5 })
      = ([120], .ok ({ event := [101, 118], data := some [104, 105, 10], id := [120], retry := 5 }, [])) := by
  have h := claim_c1_theorem .eof [] none
    { event := [101, 118], data := some [104, 105, 10], id := [120], retry := 5 }
    [104, 105, 10] rfl (by decide) (by decide) (by decide) (by decide) (by decide)
    (by decide) (by decide) (by decide)
  simpa using h

/-- C2 (counterexample): the size-limit error is not returned "exactly when
the accumulated data exceeds 4 MiB".  A single `data:` line of 2 MiB triggers
`errEventDataTooBig` even though the accumulated data (2 MiB) is well under
the limit, because the source checks `len(event.Data)+len(data)` after the
append, counting the just-read chunk twice. -/
theorem claim_c2_counterexample :
    receive .eof [] none ([100, 97, 116, 97, 58, 32] ++ List.replicate (2 ^ 21) 97 ++ [10, 10])
      = ([], .error .dataTooBig)
    ∧ (List.replicate (2 ^ 21) 97).length < MaxEventDataSize := by
  have hlen : (List.replicate (2 ^ 21) 97).length = 2 ^ 21 := by
    rw [List.length_replicate]
  have hne : List.replicate (2 ^ 21) 97 ≠ [] := by
    intro h
    have h2 := congrArg List.length h
    rw [hlen] at h2
    simp only [List.length_nil] at h2
    norm_num at h2
  constructor
  · refine receive_eq ?_
    have h10 : 10 ∉ List.replicate (2 ^ 21) 97 := by
      intro hm
      have := List.eq_of_mem_replicate hm
      omega
    have hlast : (List.replicate (2 ^ 21) 97).getLast? = some 97 := by
      rw [show (2 ^ 21 : Nat) = 2 ^ 21 - 1 + 1 from by norm_num, List.replicate_succ']
      exact List.getLast?_concat _
    have hscr : stripCR (List.replicate (2 ^ 21) 97) = List.replicate (2 ^ 21) 97 :=
      stripCR_of_ne (by rw [hlast]; simp)
    have hstep := stepData .eof []
      ({ event := [], data := Option.map (fun _ => ([] : List Nat)) (none : Option (List Nat)), id := [], retry := 0 })
      [10] h10
    rw [hscr] at hstep
    have happ : appendD ({ event := [], data := Option.map (fun _ => ([] : List Nat)) (none : Option (List Nat)), id := [], retry := 0 } : Event).data (List.replicate (2 ^ 21) 97)
        = some (List.replicate (2 ^ 21) 97) :=
      appendD_of_zero (by rfl) hne
    rw [happ] at hstep
    have hge : MaxEventDataSize ≤ dataLen (some (List.replicate (2 ^ 21) 97))
        + (List.replicate (2 ^ 21) 97).length := by
      rw [show dataLen (some (List.replicate (2 ^ 21) 97))
          = (List.replicate (2 ^ 21) 97).length from rfl, hlen, MaxEventDataSize]
      norm_num
    rw [if_pos hge] at hstep
    exact receiveLoop_done hstep (by omega)
  · rw [hlen, MaxEventDataSize]
    norm_num

/-- C2 (amended): processing one `data:` line whose value (after the
`ReadLine` carriage-return strip) is `v` returns `errEventDataTooBig` exactly
when `len(event.Data after append) + len(v) ≥ MaxEventDataSize` — the chunk is
counted twice because the check runs after appending — and otherwise
continues with the value and a newline marker appended; on the error path only
the error is surfaced, the partial record is dropped.  The size-limit error is
a distinct error kind from end-of-stream and from a generic I/O failure. -/
theorem claim_c2_theorem (endE : GoErr) (last : List Nat) (ev : Event) (t rest : List Nat)
    (h : 10 ∉ t) :
    (receiveStep endE last ev ([100, 97, 116, 97, 58, 32] ++ t ++ 10 :: rest)
      = if MaxEventDataSize ≤ dataLen (appendD ev.data (stripCR t)) + (stripCR t).length then
          .done (last, .error .dataTooBig)
        else .cont last { ev with data := appendD (appendD ev.data (stripCR t)) [10] } rest)
    ∧ GoErr.dataTooBig ≠ GoErr.eof ∧ GoErr.dataTooBig ≠ GoErr.ioErr :=
  ⟨stepData endE last ev rest h, by decide, by decide⟩

/-- C2 (witness): the amended characterization at the concrete line
`"data: a\n"` with an empty accumulator: no error, data becomes `"a\n"`. -/
theorem claim_c2_witness :
    (receiveStep .eof [] { event := [], data := none, id := [], retry := 0 }
        ([100, 97, 116, 97, 58, 32] ++ [97] ++ 10 :: [])
      = if MaxEventDataSize ≤ dataLen (appendD (none : Option (List Nat)) (stripCR [97]))
            + (stripCR [97]).length then
          .done ([], .error .dataTooBig)
        else .cont [] { event := [], data := appendD (appendD (none : Option (List Nat)) (stripCR [97])) [10], id := [], retry := 0 } [])
    ∧ GoErr.dataTooBig ≠ GoErr.eof ∧ GoErr.dataTooBig ≠ GoErr.ioErr :=
  claim_c2_theorem .eof [] { event := [], data := none, id := [], retry := 0 } [97] [] (by decide)

/-- C3: the claimed invariant is violated by the code.  When a newline
arrives before a field name is complete, `readFieldName`'s mismatch test
(`b != dataLeft[i]`) fires first and returns with the newline already
consumed — the `b == '\n'` unread guard below it is unreachable — so the
generic consume-to-next-newline step then eats the entire following line.
First conjunct: matching `"vent"` against the stream `"v\nc\n"` consumes the
newline (the remainder starts at `c`).  Second conjunct: on the stream
`"ev\ndata: hi\n\n"` the decoder silently skips the `"data: hi"` line and
returns end-of-stream instead of dispatching the record. -/
theorem claim_c3_theorem :
    readFieldName [118, 101, 110, 116] [118, 10, 99, 10] .eof = .ok (false, [99, 10])
    ∧ receive .eof [] none
        ([101, 118, 10] ++ [100, 97, 116, 97, 58, 32, 104, 105, 10, 10])
      = ([], .error .eof) :=
  ⟨rfl, rfl⟩

/-- C4: at a blank line the decoder dispatches the assembled record if and
only if data has been accumulated for the current field group (its length is
non-zero — every `data` line appends at least the newline marker, and nothing
else appends); with no accumulated data the blank line is a no-op and the
loop continues, surfacing no record for that group. -/
theorem claim_c4_theorem (endE : GoErr) (f : Nat) (last : List Nat) (ev : Event) (s : List Nat) :
    receiveLoop endE (f + 1) last ev (10 :: s) =
      if dataLen ev.data = 0 then receiveLoop endE f last ev s
      else some (last, .ok (stripOne ev, s)) := by
  by_cases hd : dataLen ev.data = 0
  · simp only [receiveLoop, stepBlank, if_pos hd]
  · simp only [receiveLoop, stepBlank, if_neg hd]

/-- C5: `Send` on the record `{data: "ends in newline\n"}` writes exactly
`"data: ends in newline\ndata:\n\n"` — the final empty segment becomes an
explicit `data:` line with no space — and `Receive` on those bytes returns a
record whose data is exactly `"ends in newline\n"`, trailing newline
preserved. -/
theorem claim_c5_theorem :
    send { event := [], data := some [101, 110, 100, 115, 32, 105, 110, 32, 110, 101, 119, 108, 105, 110, 101, 10], id := [], retry := 0 }
      = [100, 97, 116, 97, 58, 32, 101, 110, 100, 115, 32, 105, 110, 32, 110, 101, 119, 108, 105, 110, 101, 10, 100, 97, 116, 97, 58, 10, 10]
    ∧ receive .eof [] none
        [100, 97, 116, 97, 58, 32, 101, 110, 100, 115, 32, 105, 110, 32, 110, 101, 119, 108, 105, 110, 101, 10, 100, 97, 116, 97, 58, 10, 10]
      = ([], .ok ({ event := [], data := some [101, 110, 100, 115, 32, 105, 110, 32, 110, 101, 119, 108, 105, 110, 101, 10], id := [], retry := 0 }, [])) :=
  ⟨rfl, rfl⟩

/-- C6: the byte-order-mark sequence `0xEF 0xBB 0xBF` is silently discarded
whenever it appears where the loop reads a new byte (i.e. immediately after
any line boundary, not only at stream start), without touching the record
being assembled (first conjunct, for every decoder state); concretely, the
BOM followed by `"data: stuff\n\n"` decodes to exactly one record with data
`"stuff"`, consuming the whole stream, and a further read reports
end-of-stream (remaining conjuncts). -/
theorem claim_c6_theorem :
    (∀ (endE : GoErr) (f : Nat) (last : List Nat) (ev : Event) (s : List Nat),
      receiveLoop endE (f + 1) last ev (239 :: 187 :: 191 :: s)
        = receiveLoop endE f last ev s)
    ∧ receive .eof [] none
        [239, 187, 191, 100, 97, 116, 97, 58, 32, 115, 116, 117, 102, 102, 10, 10]
      = ([], .ok ({ event := [], data := some [115, 116, 117, 102, 102], id := [], retry := 0 }, []))
    ∧ receive .eof [] none [] = ([], .error .eof) :=
  ⟨fun endE f last ev s => by simp only [receiveLoop, stepBOM], rfl, rfl⟩

/-- C7: `Send` on the zero record writes exactly the comment line plus blank
terminator, the bytes `":\n\n"`; and for every `N ≥ 0`, decoding the
concatenation of `N` such keepalives yields zero records — `Receive` skips
them all and reports end of stream. -/
theorem claim_c7_theorem :
    send { event := [], data := none, id := [], retry := 0 } = [58, 10, 10]
    ∧ ∀ n : Nat, receive .eof [] none (repeatN n [58, 10, 10]) = ([], .error .eof) :=
  ⟨rfl, fun n => receive_eq (rlKeepalives .eof n [] _ _ rfl (Nat.lt_succ_self _))⟩

/-- C8: whenever the decoder matches an `id` field line, the rest of the line
becomes both the in-progress record's `id` and the decoder's persistent
`LastEventID`, unconditionally — regardless of the event state `ev`, so in
particular also in a group that carries no data (first conjunct); concretely,
decoding `"id: x\n\n"` returns no record (end of stream after a dataless
group) yet leaves `LastEventID = "x"` (second conjunct). -/
theorem claim_c8_theorem (endE : GoErr) (last : List Nat) (ev : Event) (t rest : List Nat)
    (h : 10 ∉ t) :
    receiveStep endE last ev ([105, 100, 58, 32] ++ t ++ 10 :: rest)
        = .cont t { ev with id := t } rest
    ∧ receive .eof [] none [105, 100, 58, 32, 120, 10, 10] = ([120], .error .eof) :=
  ⟨stepId endE last ev rest h, rfl⟩

/-- C8 (witness): the theorem at the concrete id line `"id: x\n"` with an
empty decoder state. -/
theorem claim_c8_witness :
    receiveStep .eof [] { event := [], data := none, id := [], retry := 0 }
        ([105, 100, 58, 32] ++ [120] ++ 10 :: [])
        = .cont [120] { event := [], data := none, id := [120], retry := 0 } []
    ∧ receive .eof [] none [105, 100, 58, 32, 120, 10, 10] = ([120], .error .eof) := by
  have h := claim_c8_theorem .eof [] { event := [], data := none, id := [], retry := 0 }
    [120] [] (by decide)
  exact ⟨h.1, h.2⟩

/-- C9: field values parsed in a group that ends at a blank line with no
accumulated data are not reset: decoding
`"event: x\nid: y\nretry: 5\n\ndata: hi\n\n"` — where the first group has
`event`, `id` and `retry` but no data — returns a single record carrying
`event = "x"`, `id = "y"` and `retry = 5` from the discarded group together
with the second group's data. -/
theorem claim_c9_theorem :
    receive .eof [] none
        [101, 118, 101, 110, 116, 58, 32, 120, 10, 105, 100, 58, 32, 121, 10,
         114, 101, 116, 114, 121, 58, 32, 53, 10, 10, 100, 97, 116, 97, 58, 32, 104, 105, 10, 10]
      = ([121], .ok ({ event := [120], data := some [104, 105], id := [121], retry := 5 }, [])) :=
  rfl

/-- C10: a record whose only non-default field is a present-but-empty data
payload is not the zero record, yet `Send` writes no `data:` line for it —
only the blank terminator, the single byte `"\n"` — and a decoder reading
that byte treats it as a keepalive and returns no record (end of stream). -/
theorem claim_c10_theorem :
    Event.isZero { event := [], data := some [], id := [], retry := 0 } = false
    ∧ send { event := [], data := some [], id := [], retry := 0 } = [10]
    ∧ receive .eof [] none [10] = ([], .error .eof) :=
  ⟨by decide, rfl, rfl⟩
